import Mathlib

/-!
Shallow embedding of the `proptest-state-machine-banking` repository.

Source files modelled:
* `src/lib.rs` — the event-sourced ledger `Bank` with its `Transaction`
  log and the operations `open`, `deposit`, `withdraw`, `transfer`,
  `balance`.
* `tests/lib.rs` — the reference model `SimBank` / `SimAccount`, the
  system under test wrapper `RealBank`, the `Transition` type with
  `SimBank::preconditions` and `SimBank::apply`, and the differential
  assertion loop in `RealBank::apply`.

Modelling conventions:
* Rust `u64` values are carried as `Nat`; the cast `amount as i64`
  (two's complement reinterpretation) is `toI64`, with the explicit
  `% 2 ^ 64` reduction.  Balances are `Int`; the `i64` summation in
  `Bank::balance` and the `i64` arithmetic of `SimBank::apply` are
  modelled exactly, cast per element; an `i64` sum overflow aborts a
  debug-mode Rust run (it returns no value), so no claim below turns
  on it.
* `&mut self` methods become state-passing functions
  `Bank → result × Bank`.
* Every code path of every `Bank` method returns `Ok`; `IoError`
  stands for `std::io::Error`, which the code never constructs.
* `proptest::sample::Index` resolves against a list deterministically,
  by position modulo the current length (spec §9: "position-in-collection
  indices mapped modulo current length"); it is carried as a raw `Nat`.
* The Rust name `open` is a Lean keyword, so the method is
  `Bank.openAccount`; the `Transaction` fields `from` and `to` are Lean
  reserved tokens, so they are `from_` and `to_`.
-/

/-- Two's-complement reinterpretation of a `u64` value as an `i64`:
Rust's `amount as i64` cast. -/
def toI64 (a : Nat) : Int :=
  if a % 2 ^ 64 < 2 ^ 63 then (a % 2 ^ 64 : Int) else (a % 2 ^ 64 : Int) - 2 ^ 64

/-- Stands for `std::io::Error`.  The bank's methods all have result type
`io::Result<_>` but every path returns `Ok`; no error value is ever built. -/
structure IoError where
  msg : String
deriving DecidableEq, Repr

deriving instance DecidableEq for Except

/-- A transaction within our bank: `enum Transaction` in `src/lib.rs`. -/
inductive Transaction where
  | deposit (to_ amount : Nat)
  | withdraw (from_ amount : Nat)
  | transfer (from_ to_ amount : Nat)
deriving DecidableEq, Repr

/-- The "real" bank of `src/lib.rs`: a list of opened account ids and the
append-only transaction log. -/
structure Bank where
  accounts : List Nat
  transactions : List Transaction
deriving DecidableEq, Repr

/-- `Bank::default()`: both vectors empty. -/
def Bank.default : Bank := { accounts := [], transactions := [] }

/-- `Bank::open`.  The overdraft flag parameter is named `_can_overdraw`
in the source and is unused.  The new id is `accounts.last().map_or(0, |id| id + 1)`
and is pushed onto `accounts`. -/
def Bank.openAccount (b : Bank) (_can_overdraw : Bool) : Except IoError Nat × Bank :=
  let new_account :=
    match b.accounts.getLast? with
    | some id => id + 1
    | none => 0
  (Except.ok new_account, { b with accounts := b.accounts ++ [new_account] })

/-- `Bank::deposit`: unconditionally appends a Deposit transaction. -/
def Bank.deposit (b : Bank) (id amount : Nat) : Except IoError Unit × Bank :=
  (Except.ok (), { b with transactions := b.transactions ++ [Transaction.deposit id amount] })

/-- `Bank::withdraw`: unconditionally appends a Withdraw transaction. -/
def Bank.withdraw (b : Bank) (id amount : Nat) : Except IoError Unit × Bank :=
  (Except.ok (), { b with transactions := b.transactions ++ [Transaction.withdraw id amount] })

/-- `Bank::transfer`: unconditionally appends a Transfer transaction. -/
def Bank.transfer (b : Bank) (from_ to_ amount : Nat) : Except IoError Unit × Bank :=
  (Except.ok (), { b with transactions := b.transactions ++ [Transaction.transfer from_ to_ amount] })

/-- The `filter_map` closure of `Bank::balance`: the signed contribution of
one transaction toward the account `id`.  For a Transfer the `from` arm is
checked first and returns, so a self-transfer contributes only `-amount`. -/
def Transaction.contribution (t : Transaction) (id : Nat) : Option Int :=
  match t with
  | .deposit to_ amount => if to_ = id then some (toI64 amount) else none
  | .withdraw from_ amount => if from_ = id then some (-toI64 amount) else none
  | .transfer from_ to_ amount =>
    if from_ = id then some (-toI64 amount)
    else if to_ = id then some (toI64 amount)
    else none

/-- The value computed inside `Bank::balance`: the sum of the filtered
contributions over the whole log. -/
def Bank.balanceVal (b : Bank) (id : Nat) : Int :=
  (b.transactions.filterMap (fun t => t.contribution id)).sum

/-- `Bank::balance`: always `Ok`, returning the log fold. -/
def Bank.balance (b : Bank) (id : Nat) : Except IoError Int :=
  Except.ok (b.balanceVal id)

/-! ### Sequences of calls against the public `Bank` API -/

/-- One call against the public `Bank` API. -/
inductive Op where
  | openAcct (can_overdraw : Bool)
  | deposit (id amount : Nat)
  | withdraw (id amount : Nat)
  | transfer (from_ to_ amount : Nat)
deriving DecidableEq, Repr

/-- The result returned by one API call. -/
inductive OpResult where
  | opened (r : Except IoError Nat)
  | done (r : Except IoError Unit)
deriving DecidableEq, Repr

/-- Perform one API call. -/
def Bank.step (b : Bank) : Op → OpResult × Bank
  | .openAcct f =>
    let p := b.openAccount f
    (.opened p.1, p.2)
  | .deposit id amount =>
    let p := b.deposit id amount
    (.done p.1, p.2)
  | .withdraw id amount =>
    let p := b.withdraw id amount
    (.done p.1, p.2)
  | .transfer f t amount =>
    let p := b.transfer f t amount
    (.done p.1, p.2)

/-- Perform a sequence of API calls, collecting all results. -/
def Bank.run (b : Bank) : List Op → List OpResult × Bank
  | [] => ([], b)
  | op :: ops =>
    let p := b.step op
    let q := p.2.run ops
    (p.1 :: q.1, q.2)

/-- The bank obtained by a sequence of API calls. -/
def Bank.runOps (b : Bank) (ops : List Op) : Bank := (b.run ops).2

/-! ### The differential test harness of `tests/lib.rs` -/

/-- A simulated account (`struct SimAccount`): contrary to the production
code it stores the actual balance. -/
structure SimAccount where
  id : Nat
  balance : Int
deriving DecidableEq, Repr

instance : Inhabited SimAccount := ⟨{ id := 0, balance := 0 }⟩

/-- The state of the "simulated" bank (`struct SimBank`). -/
structure SimBank where
  accounts : List SimAccount
  next_account_id : Nat
deriving DecidableEq, Repr

/-- `SimBank::init_state()`: empty accounts, next id `0`. -/
def SimBank.init : SimBank := { accounts := [], next_account_id := 0 }

/-- The state of the "real" bank wrapper (`struct RealBank`). -/
structure RealBank where
  inner : Bank
  open_accounts : List Nat
deriving DecidableEq, Repr

/-- `RealBank::init_test`: a default `Bank` and no open accounts. -/
def RealBank.init : RealBank := { inner := Bank.default, open_accounts := [] }

/-- A transition of the reference state machine (`enum Transition`).
Account selectors are `proptest::sample::Index` values, carried as raw
naturals and resolved by position modulo the current list length. -/
inductive Transition where
  | openT
  | withdrawT (account_id amount : Nat)
  | depositT (account_id amount : Nat)
  | transferT (from_ to_ amount : Nat)
deriving DecidableEq, Repr

/-- Resolution of a `sample::Index` against a list (`Index::get`):
the element at position `u % l.length`.  `get` on an empty list panics in
Rust; here the default is returned, and every use below is guarded by a
precondition making the list non-empty. -/
def sampleGet [Inhabited α] (u : Nat) (l : List α) : α :=
  l.getD (u % l.length) default

/-- Replace the element at position `i` by `f` of it (`get_mut` followed by
a mutation); out-of-range positions leave the list unchanged. -/
def modifyAt (l : List α) (i : Nat) (f : α → α) : List α :=
  match l[i]? with
  | none => l
  | some a => l.set i (f a)

/-- `SimBank::apply` of `ReferenceStateMachine`: direct arithmetic on the
stored balances, amounts cast with `as i64`. -/
def SimBank.apply (s : SimBank) : Transition → SimBank
  | .openT =>
    { s with
        accounts := s.accounts ++ [{ id := s.next_account_id, balance := 0 }],
        next_account_id := s.next_account_id + 1 }
  | .withdrawT u amount =>
    { s with
        accounts := modifyAt s.accounts (u % s.accounts.length)
          (fun a => { a with balance := a.balance - toI64 amount }) }
  | .depositT u amount =>
    { s with
        accounts := modifyAt s.accounts (u % s.accounts.length)
          (fun a => { a with balance := a.balance + toI64 amount }) }
  | .transferT u v amount =>
    let acc1 := modifyAt s.accounts (u % s.accounts.length)
      (fun a => { a with balance := a.balance - toI64 amount })
    { s with
        accounts := modifyAt acc1 (v % acc1.length)
          (fun a => { a with balance := a.balance + toI64 amount }) }

/-- `SimBank::preconditions`: `Open` is always legal, `Withdraw`/`Deposit`
need a non-empty account list, `Transfer` additionally needs the two
selectors to resolve to distinct account ids. -/
def SimBank.preconditions (s : SimBank) : Transition → Bool
  | .openT => true
  | .withdrawT _ _ => !s.accounts.isEmpty
  | .depositT _ _ => !s.accounts.isEmpty
  | .transferT u v _ =>
    if s.accounts.isEmpty then false
    else (sampleGet u s.accounts).id != (sampleGet v s.accounts).id

/-- `RealBank::apply` of `StateMachineTest` (the "act" part only):
perform the operation against the production `Bank`.  The `.unwrap()`
calls never panic since every `Bank` method returns `Ok`; the `.error`
arm below is unreachable. -/
def RealBank.apply (s : RealBank) : Transition → RealBank
  | .openT =>
    let p := s.inner.openAccount false
    let id := match p.1 with | .ok id => id | .error _ => 0
    { inner := p.2, open_accounts := s.open_accounts ++ [id] }
  | .withdrawT u amount =>
    let account := sampleGet u s.open_accounts
    { s with inner := (s.inner.withdraw account amount).2 }
  | .depositT u amount =>
    let account := sampleGet u s.open_accounts
    { s with inner := (s.inner.deposit account amount).2 }
  | .transferT u v amount =>
    let from_ := sampleGet u s.open_accounts
    let to_ := sampleGet v s.open_accounts
    { s with inner := (s.inner.transfer from_ to_ amount).2 }

/-- The assertion loop at the end of `RealBank::apply`: zip the open
account ids with the simulated accounts (the two vectors share their
order) and compare `Bank::balance` with the stored simulated balance. -/
def balancesAgree (real : RealBank) (s : SimBank) : Bool :=
  (real.open_accounts.zip s.accounts).all
    (fun p => real.inner.balance p.1 == Except.ok p.2.balance)

/-- One step of the differential runner: the reference model first, then
the production bank. -/
def runPair (p : SimBank × RealBank) (t : Transition) : SimBank × RealBank :=
  (p.1.apply t, p.2.apply t)

/-- Run a transition sequence from the initial pair of states. -/
def runSeq (ts : List Transition) : SimBank × RealBank :=
  ts.foldl runPair (SimBank.init, RealBank.init)

/-- A transition sequence is valid when each transition satisfies
`SimBank::preconditions` in the reference state it is applied to. -/
def ValidSeq : SimBank → List Transition → Bool
  | _, [] => true
  | s, t :: ts => s.preconditions t && ValidSeq (s.apply t) ts

/-- All account ids mentioned by a transaction lie below `n`. -/
def TxBelow (n : Nat) : Transaction → Prop
  | .deposit to_ _ => to_ < n
  | .withdraw from_ _ => from_ < n
  | .transfer from_ to_ _ => from_ < n ∧ to_ < n

/-- The coupling invariant of the differential run: the simulated ids are
the positions `0, …, n-1`, the real wrapper tracks the same ids in the
same order, every logged transaction touches only opened accounts, and
the log fold agrees with every stored simulated balance. -/
structure DiffInv (s : SimBank) (r : RealBank) : Prop where
  ids : ∀ (k : Nat) (a : SimAccount), s.accounts[k]? = some a → a.id = k
  next : s.next_account_id = s.accounts.length
  opens : r.open_accounts = List.range s.accounts.length
  bankAccounts : r.inner.accounts = List.range s.accounts.length
  txs : ∀ tx ∈ r.inner.transactions, TxBelow s.accounts.length tx
  bal : ∀ (k : Nat) (a : SimAccount), s.accounts[k]? = some a → r.inner.balanceVal k = a.balance

/-! ### Definitions taken from the specification's words

These two definitions follow the spec sentences, not the source, and are
compared with the source-derived `Transaction.contribution` above. -/

/-- The signed contribution of one transaction as the spec sentence for
claim C1 words it: "+amount for each Deposit whose target is id, −amount
for each Withdraw whose source is id, −amount for each Transfer where id
is the source, and +amount for each Transfer where id is the target".
Both Transfer clauses apply when source and target coincide. -/
def specContribution (id : Nat) : Transaction → Int
  | .deposit to_ amount => if to_ = id then toI64 amount else 0
  | .withdraw from_ amount => if from_ = id then -toI64 amount else 0
  | .transfer from_ to_ amount =>
    (if from_ = id then -toI64 amount else 0) + (if to_ = id then toI64 amount else 0)

/-- The signed sum over a transaction log described by claim C1. -/
def specSum (id : Nat) (txs : List Transaction) : Int :=
  (txs.map (specContribution id)).sum

/-- The signed contribution as amended for claim C1: a Transfer whose
source is `id` contributes `-amount` and its target clause applies only
when the source differs from `id` — a self-transfer counts exactly once,
as `-amount`. -/
def amendedContribution (id : Nat) : Transaction → Int
  | .deposit to_ amount => if to_ = id then toI64 amount else 0
  | .withdraw from_ amount => if from_ = id then -toI64 amount else 0
  | .transfer from_ to_ amount =>
    if from_ = id then -toI64 amount else if to_ = id then toI64 amount else 0

/-- The amended signed sum over a transaction log for claim C1. -/
def amendedSum (id : Nat) (txs : List Transaction) : Int :=
  (txs.map (amendedContribution id)).sum

/-! ### Observations over API-call sequences -/

/-- The number of `open` calls in a sequence. -/
def countOpens : List Op → Nat
  | [] => 0
  | .openAcct _ :: ops => countOpens ops + 1
  | .deposit _ _ :: ops => countOpens ops
  | .withdraw _ _ :: ops => countOpens ops
  | .transfer _ _ _ :: ops => countOpens ops

/-- The account id carried by a successful `open` result. -/
def extractOpened : OpResult → Option Nat
  | .opened (.ok id) => some id
  | .opened (.error _) => none
  | .done _ => none

/-- Whether a result is not a failed `open`. -/
def openOk : OpResult → Bool
  | .opened (.error _) => false
  | .opened (.ok _) => true
  | .done _ => true

/-- The account ids issued by the successful `open` calls of a sequence
run against a fresh bank, in call order. -/
def issuedIds (ops : List Op) : List Nat :=
  (Bank.default.run ops).1.filterMap extractOpened

/-- Two API-call sequences that agree except possibly in the boolean
arguments passed to `open`. -/
inductive FlagEquiv : List Op → List Op → Prop
  | nil : FlagEquiv [] []
  | openCons (b1 b2 : Bool) {l1 l2 : List Op} :
      FlagEquiv l1 l2 → FlagEquiv (Op.openAcct b1 :: l1) (Op.openAcct b2 :: l2)
  | sameCons (op : Op) {l1 l2 : List Op} :
      FlagEquiv l1 l2 → FlagEquiv (op :: l1) (op :: l2)

/-! ## Theorems -/

/-- The amended per-transaction contribution is the `getD 0` collapse of
the `filter_map` closure in `Bank::balance`. -/
theorem amendedContribution_eq (id : Nat) (t : Transaction) :
    amendedContribution id t = (t.contribution id).getD 0 := by
  cases t <;> simp only [amendedContribution, Transaction.contribution] <;>
    split_ifs <;> rfl

/-- The log fold of `Bank::balance` equals the amended signed sum. -/
theorem sum_contribution_eq_amendedSum (id : Nat) (txs : List Transaction) :
    (txs.filterMap (fun t => t.contribution id)).sum = amendedSum id txs := by
  induction txs with
  | nil => rfl
  | cons t ts ih =>
    have h1 : ((t :: ts).filterMap (fun t => t.contribution id)).sum
        = (t.contribution id).getD 0 + (ts.filterMap (fun t => t.contribution id)).sum := by
      cases hc : t.contribution id <;> simp [List.filterMap_cons, hc]
    rw [h1, ih, ← amendedContribution_eq]
    simp [amendedSum]

/-- C1: the claim's signed-sum formula counts a self-transfer twice
(`-amount` as source and `+amount` as target, i.e. `0`), while
`Bank::balance` returns from the source arm first and counts it once.
After `open(false)` and the accepted call `transfer(0, 0, 5)`, `balance(0)`
is `Ok(-5)` but the claim's sum is `0`. -/
theorem claim_C1_counterexample :
    (Bank.default.runOps [.openAcct false, .transfer 0 0 5]).balance 0 = Except.ok (-5) ∧
    specSum 0 (Bank.default.runOps [.openAcct false, .transfer 0 0 5]).transactions = 0 ∧
    ¬ ((Bank.default.runOps [.openAcct false, .transfer 0 0 5]).balance 0
        = Except.ok (specSum 0
            (Bank.default.runOps [.openAcct false, .transfer 0 0 5]).transactions)) := by
  refine ⟨by decide, by decide, by decide⟩

/-- C1 (amended): for every sequence of accepted operations and every
account id, `Bank::balance(id)` returns exactly the signed sum over the
full transaction log of: +amount for each Deposit whose target is id,
−amount for each Withdraw whose source is id, −amount for each Transfer
where id is the source, and +amount for each Transfer where id is the
target and the source is not id (a self-transfer counts once as
−amount). -/
theorem claim_C1_amended (ops : List Op) (id : Nat) :
    (Bank.default.runOps ops).balance id
      = Except.ok (amendedSum id (Bank.default.runOps ops).transactions) := by
  unfold Bank.balance Bank.balanceVal
  rw [sum_contribution_eq_amendedSum]

/-- C3: the overdraft gate does not exist.  Account `0` is opened with
`allow_overdraft = false`, yet the accepted sequence `withdraw(0, 1)`
drives `balance(0)` to `-1`, which is negative. -/
theorem claim_C3_counterexample :
    (Bank.default.runOps [.openAcct false, .withdraw 0 1]).balance 0 = Except.ok (-1) ∧
    (-1 : Int) < 0 := by
  refine ⟨by decide, by decide⟩

/-- C3 (amended): opening an account with `allow_overdraft = false` does
not prevent overdrafts: a sequence of operations in which every `open`
passes `false` can still drive the account's balance negative, because
`Bank::withdraw` performs no balance check. -/
theorem claim_C3_amended :
    ∃ ops : List Op, (∀ b, Op.openAcct b ∈ ops → b = false) ∧
      ∃ v, (Bank.default.runOps ops).balance 0 = Except.ok v ∧ v < 0 := by
  refine ⟨[.openAcct false, .withdraw 0 1], by decide, -1, by decide, by decide⟩

/-- C4: `Bank::withdraw` never fails.  On a freshly opened account with
`allow_overdraft = false`, `withdraw(0, 1)` returns `Ok(())` instead of
`InsufficientFunds`, and the balance becomes `-1` instead of remaining
`0`. -/
theorem claim_C4_counterexample :
    ((Bank.default.runOps [.openAcct false]).withdraw 0 1).1 = Except.ok () ∧
    ¬ ((Bank.default.runOps [.openAcct false, .withdraw 0 1]).balance 0 = Except.ok 0) := by
  refine ⟨by decide, by decide⟩

/-- C4 (amended): `Bank::withdraw(id, amount)` always succeeds, appending
a Withdraw transaction, with no existence, frozen/closed or overdraft
check; in particular on a freshly opened account with
`allow_overdraft = false`, `withdraw(id, 1)` succeeds and `balance(id)`
becomes `-1`. -/
theorem claim_C4_amended :
    (∀ (b : Bank) (id amount : Nat),
        (b.withdraw id amount).1 = Except.ok () ∧
        (b.withdraw id amount).2.transactions
          = b.transactions ++ [Transaction.withdraw id amount]) ∧
    (Bank.default.runOps [.openAcct false, .withdraw 0 1]).balance 0 = Except.ok (-1) := by
  exact ⟨fun b id amount => ⟨rfl, rfl⟩, by decide⟩

/-- C5: `Bank::balance` never fails.  On a fresh bank, id `7` was never
returned by `open`, yet `balance(7)` returns `Ok(0)` rather than failing
with `AccountNotFound` (`isOk` excludes every error result). -/
theorem claim_C5_counterexample :
    Bank.default.balance 7 = Except.ok 0 ∧ (Bank.default.balance 7).isOk = true := by
  refine ⟨by decide, by decide⟩

/-- C5 (amended): `balance(id)` always succeeds — also for identifiers
never returned by `open` — returning the signed fold of the transaction
log filtered to `id`, which is `0` when no transaction mentions `id`. -/
theorem claim_C5_amended :
    (∀ (b : Bank) (id : Nat),
        b.balance id
          = Except.ok ((b.transactions.filterMap (fun t => t.contribution id)).sum)) ∧
    Bank.default.balance 7 = Except.ok 0 := by
  exact ⟨fun b id => rfl, by decide⟩

/-- C6: a self-transfer is not rejected.  `transfer(0, 0, 5)` returns
`Ok(())` instead of `InvalidTransfer` and appends a Transfer transaction
to the log. -/
theorem claim_C6_counterexample :
    (Bank.default.transfer 0 0 5).1 = Except.ok () ∧
    (Bank.default.transfer 0 0 5).2.transactions = [Transaction.transfer 0 0 5] := by
  refine ⟨by decide, by decide⟩

/-- C6 (amended): for every pair of identifiers with `from == to` and
every amount, `Bank::transfer(from, to, amount)` succeeds and appends a
Transfer transaction to the log; no `InvalidTransfer` check exists. -/
theorem claim_C6_amended (b : Bank) (a amount : Nat) :
    (b.transfer a a amount).1 = Except.ok () ∧
    (b.transfer a a amount).2.transactions
      = b.transactions ++ [Transaction.transfer a a amount] :=
  ⟨rfl, rfl⟩

/-- C7: `Bank::deposit` never fails.  On a fresh bank, id `5` was never
issued by `open`, yet `deposit(5, 10)` returns `Ok(())` instead of
`AccountNotFound`, and the Deposit transaction is appended. -/
theorem claim_C7_counterexample :
    (Bank.default.deposit 5 10).1 = Except.ok () ∧
    (Bank.default.deposit 5 10).2.transactions = [Transaction.deposit 5 10] := by
  refine ⟨by decide, by decide⟩

/-- C7 (amended): `Bank::deposit(id, amount)` always succeeds, appending
a Deposit transaction, whether or not `id` names an account ever issued
by `open`; no `AccountNotFound` or `AccountClosed` check exists. -/
theorem claim_C7_amended (b : Bank) (id amount : Nat) :
    (b.deposit id amount).1 = Except.ok () ∧
    (b.deposit id amount).2.transactions
      = b.transactions ++ [Transaction.deposit id amount] :=
  ⟨rfl, rfl⟩

/-- Appending one transaction changes the balance fold by that
transaction's contribution. -/
theorem balanceVal_append (b : Bank) (tx : Transaction) (id : Nat) :
    Bank.balanceVal { b with transactions := b.transactions ++ [tx] } id
      = b.balanceVal id + (tx.contribution id).getD 0 := by
  unfold Bank.balanceVal
  cases hc : tx.contribution id <;>
    simp [List.filterMap_append, List.filterMap_cons, hc]

/-- C9: a transfer between two distinct accounts moves `amount` from the
source to the target: the sum of the two balances is unchanged and every
third account's balance is untouched. -/
theorem claim_C9 (b : Bank) (from_ to_ amount c : Nat)
    (h : from_ ≠ to_) (hc1 : c ≠ from_) (hc2 : c ≠ to_) :
    ((b.transfer from_ to_ amount).2.balanceVal from_
        + (b.transfer from_ to_ amount).2.balanceVal to_
      = b.balanceVal from_ + b.balanceVal to_) ∧
    (b.transfer from_ to_ amount).2.balance c = b.balance c := by
  have e1 : (Transaction.transfer from_ to_ amount).contribution from_
      = some (-toI64 amount) := by
    simp [Transaction.contribution]
  have e2 : (Transaction.transfer from_ to_ amount).contribution to_
      = some (toI64 amount) := by
    simp [Transaction.contribution, h]
  have e3 : (Transaction.transfer from_ to_ amount).contribution c = none := by
    simp [Transaction.contribution, Ne.symm hc1, Ne.symm hc2]
  have h1 := balanceVal_append b (Transaction.transfer from_ to_ amount) from_
  have h2 := balanceVal_append b (Transaction.transfer from_ to_ amount) to_
  have h3 := balanceVal_append b (Transaction.transfer from_ to_ amount) c
  rw [e1] at h1
  rw [e2] at h2
  rw [e3] at h3
  refine ⟨?_, ?_⟩
  · show Bank.balanceVal _ from_ + Bank.balanceVal _ to_ = _
    rw [show (b.transfer from_ to_ amount).2
        = { b with transactions := b.transactions ++ [Transaction.transfer from_ to_ amount] }
      from rfl, h1, h2]
    simp [Option.getD]
    ring
  · show Bank.balance _ c = _
    unfold Bank.balance
    rw [show (b.transfer from_ to_ amount).2
        = { b with transactions := b.transactions ++ [Transaction.transfer from_ to_ amount] }
      from rfl, h3]
    simp [Option.getD]

/-- C9 witness: concrete instantiation on a fresh bank with accounts `0`,
`1` and bystander `2`. -/
theorem claim_C9_witness :
    (0 : Nat) ≠ 1 ∧ (2 : Nat) ≠ 0 ∧ (2 : Nat) ≠ 1 ∧
    (((Bank.default.transfer 0 1 5).2.balanceVal 0
          + (Bank.default.transfer 0 1 5).2.balanceVal 1
        = Bank.default.balanceVal 0 + Bank.default.balanceVal 1) ∧
      (Bank.default.transfer 0 1 5).2.balance 2 = Bank.default.balance 2) :=
  ⟨by decide, by decide, by decide,
    claim_C9 Bank.default 0 1 5 2 (by decide) (by decide) (by decide)⟩

/-- When the opened accounts are exactly `0, …, n-1`, `Bank::open` issues
id `n` and the accounts become `0, …, n`. -/
theorem openAccount_range (b : Bank) (f : Bool) (n : Nat) (h : b.accounts = List.range n) :
    b.openAccount f = (Except.ok n, { b with accounts := List.range (n + 1) }) := by
  unfold Bank.openAccount
  cases n with
  | zero => simp [h, List.range_succ]
  | succ m =>
    have hl : b.accounts.getLast? = some m := by
      rw [h, List.range_succ]
      exact List.getLast?_concat _
    simp [hl, h, List.range_succ]

/-- Running any call sequence from a bank whose accounts are `0, …, n-1`:
the accounts stay an initial range, every `open` succeeds, and the issued
ids are `n, n+1, …` in order. -/
theorem run_range_invariant (ops : List Op) :
    ∀ (b : Bank) (n : Nat), b.accounts = List.range n →
      (b.run ops).2.accounts = List.range (n + countOpens ops) ∧
      (b.run ops).1.filterMap extractOpened = List.range' n (countOpens ops) ∧
      (b.run ops).1.all openOk = true := by
  induction ops with
  | nil =>
    intro b n h
    refine ⟨by simpa [Bank.run, countOpens] using h, by simp [Bank.run, countOpens], by simp [Bank.run]⟩
  | cons op ops ih =>
    intro b n h
    cases op with
    | openAcct f =>
      have ho := openAccount_range b f n h
      have hstep : b.step (.openAcct f)
          = (.opened (Except.ok n), { b with accounts := List.range (n + 1) }) := by
        simp [Bank.step, ho]
      obtain ⟨h1, h2, h3⟩ := ih { b with accounts := List.range (n + 1) } (n + 1) rfl
      refine ⟨?_, ?_, ?_⟩
      · show (let p := b.step (.openAcct f); let q := p.2.run ops; (p.1 :: q.1, q.2)).2.accounts = _
        rw [hstep]
        simpa [countOpens, Nat.add_assoc, Nat.add_comm 1 (countOpens ops)] using h1
      · show (let p := b.step (.openAcct f); let q := p.2.run ops; (p.1 :: q.1, q.2)).1.filterMap extractOpened = _
        rw [hstep]
        simp [countOpens, List.filterMap_cons, extractOpened, List.range'_succ, h2]
      · show (let p := b.step (.openAcct f); let q := p.2.run ops; (p.1 :: q.1, q.2)).1.all openOk = true
        rw [hstep]
        simp [List.all_cons, openOk, h3]
    | deposit id amount =>
      obtain ⟨h1, h2, h3⟩ := ih (b.deposit id amount).2 n h
      exact ⟨by simpa [Bank.run, Bank.step, countOpens] using h1,
        by simpa [Bank.run, Bank.step, countOpens, List.filterMap_cons, extractOpened] using h2,
        by simpa [Bank.run, Bank.step, List.all_cons, openOk] using h3⟩
    | withdraw id amount =>
      obtain ⟨h1, h2, h3⟩ := ih (b.withdraw id amount).2 n h
      exact ⟨by simpa [Bank.run, Bank.step, countOpens] using h1,
        by simpa [Bank.run, Bank.step, countOpens, List.filterMap_cons, extractOpened] using h2,
        by simpa [Bank.run, Bank.step, List.all_cons, openOk] using h3⟩
    | transfer f t amount =>
      obtain ⟨h1, h2, h3⟩ := ih (b.transfer f t amount).2 n h
      exact ⟨by simpa [Bank.run, Bank.step, countOpens] using h1,
        by simpa [Bank.run, Bank.step, countOpens, List.filterMap_cons, extractOpened] using h2,
        by simpa [Bank.run, Bank.step, List.all_cons, openOk] using h3⟩

/-- C8: on a fresh bank every `open` succeeds and the issued account ids
are exactly `0, 1, 2, …` in call order (`List.range`), hence pairwise
strictly increasing and starting at `0`. -/
theorem claim_C8 (ops : List Op) :
    (Bank.default.run ops).1.all openOk = true ∧
    issuedIds ops = List.range (countOpens ops) ∧
    List.Pairwise (· < ·) (issuedIds ops) := by
  obtain ⟨h1, h2, h3⟩ := run_range_invariant ops Bank.default 0 rfl
  have hr : issuedIds ops = List.range (countOpens ops) := by
    rw [issuedIds, h2, ← List.range_eq_range']
  exact ⟨h3, hr, by rw [hr]; exact List.pairwise_lt_range _⟩

/-- `Bank::open` ignores its boolean argument, so a single call step is
independent of it. -/
theorem step_ignores_flag (b : Bank) (b1 b2 : Bool) :
    b.step (.openAcct b1) = b.step (.openAcct b2) := rfl

/-- Runs of two sequences that differ only in `open` flags coincide. -/
theorem run_flagEquiv {l1 l2 : List Op} (h : FlagEquiv l1 l2) :
    ∀ b : Bank, b.run l1 = b.run l2 := by
  induction h with
  | nil => intro b; rfl
  | openCons b1 b2 _ ih =>
    intro b
    simp only [Bank.run, step_ignores_flag b b1 b2, ih]
  | sameCons op _ ih =>
    intro b
    simp only [Bank.run, ih]

/-- C10: the `allow_overdraft` flag passed to `Bank::open` has no
observable effect: two runs of the same call sequence differing only in
the booleans given to `open` return the same result for every operation
and the same value for every balance query. -/
theorem claim_C10 (l1 l2 : List Op) (id : Nat) (h : FlagEquiv l1 l2) :
    (Bank.default.run l1).1 = (Bank.default.run l2).1 ∧
    (Bank.default.runOps l1).balance id = (Bank.default.runOps l2).balance id := by
  have hr := run_flagEquiv h Bank.default
  exact ⟨by rw [hr], by rw [Bank.runOps, Bank.runOps, hr]⟩

/-- C10 witness: the same two-call sequence with `open(true)` versus
`open(false)`. -/
theorem claim_C10_witness :
    FlagEquiv [Op.openAcct true, Op.deposit 0 5] [Op.openAcct false, Op.deposit 0 5] ∧
    ((Bank.default.run [Op.openAcct true, Op.deposit 0 5]).1
        = (Bank.default.run [Op.openAcct false, Op.deposit 0 5]).1 ∧
      (Bank.default.runOps [Op.openAcct true, Op.deposit 0 5]).balance 0
        = (Bank.default.runOps [Op.openAcct false, Op.deposit 0 5]).balance 0) :=
  ⟨FlagEquiv.openCons true false (FlagEquiv.sameCons (Op.deposit 0 5) FlagEquiv.nil),
    claim_C10 _ _ 0 (FlagEquiv.openCons true false (FlagEquiv.sameCons (Op.deposit 0 5) FlagEquiv.nil))⟩

/-- `modifyAt` preserves length. -/
theorem modifyAt_length {α} (l : List α) (i : Nat) (f : α → α) :
    (modifyAt l i f).length = l.length := by
  unfold modifyAt
  cases h : l[i]? with
  | none => rfl
  | some a => simp

/-- `modifyAt` maps the element at the modified position. -/
theorem modifyAt_getElem?_self {α} (l : List α) (i : Nat) (f : α → α) (a : α)
    (h : l[i]? = some a) : (modifyAt l i f)[i]? = some (f a) := by
  have hi : i < l.length := by
    by_contra hge
    rw [List.getElem?_eq_none (by omega)] at h
    exact Option.noConfusion h
  unfold modifyAt
  rw [h]
  simp [List.getElem?_set_self, hi]

/-- `modifyAt` leaves other positions unchanged. -/
theorem modifyAt_getElem?_ne {α} (l : List α) (i k : Nat) (f : α → α)
    (h : k ≠ i) : (modifyAt l i f)[k]? = l[k]? := by
  unfold modifyAt
  cases hc : l[i]? with
  | none => rfl
  | some a => rw [List.getElem?_set_ne (Ne.symm h)]

/-- A transaction mentioning only ids below `n` contributes nothing to an
account at or above `n`. -/
theorem contribution_none_of_txBelow (tx : Transaction) (n id : Nat)
    (hb : TxBelow n tx) (hid : n ≤ id) : tx.contribution id = none := by
  cases tx with
  | deposit to_ amount =>
    have h1 : to_ < n := hb
    have : to_ ≠ id := by omega
    simp [Transaction.contribution, this]
  | withdraw from_ amount =>
    have h1 : from_ < n := hb
    have : from_ ≠ id := by omega
    simp [Transaction.contribution, this]
  | transfer from_ to_ amount =>
    have h1 : from_ < n ∧ to_ < n := hb
    have e1 : from_ ≠ id := by omega
    have e2 : to_ ≠ id := by omega
    simp [Transaction.contribution, e1, e2]

/-- A bank whose log touches only ids below `n` folds to `0` at ids `≥ n`. -/
theorem balanceVal_zero_of_below (b : Bank) (n id : Nat)
    (htx : ∀ tx ∈ b.transactions, TxBelow n tx) (hid : n ≤ id) :
    b.balanceVal id = 0 := by
  unfold Bank.balanceVal
  rw [List.filterMap_eq_nil_iff.mpr
    (fun tx htxm => contribution_none_of_txBelow tx n id (htx tx htxm) hid)]
  rfl

/-- Pointwise criterion for the differential assertion over a zip. -/
theorem all_zip_of_index {α β} (pred : α × β → Bool) :
    ∀ (l1 : List α) (l2 : List β),
      (∀ (k : Nat) (x : α) (y : β), l1[k]? = some x → l2[k]? = some y → pred (x, y) = true) →
      (l1.zip l2).all pred = true := by
  intro l1
  induction l1 with
  | nil => intro l2 _; rfl
  | cons a l1 ih =>
    intro l2 h
    cases l2 with
    | nil => rfl
    | cons b l2 =>
      rw [List.zip_cons_cons, List.all_cons]
      have h0 := h 0 a b (by simp) (by simp)
      have hrest := ih l2
        (fun k x y hx hy => h (k + 1) x y (by simpa using hx) (by simpa using hy))
      rw [h0, hrest]
      rfl

/-- Indexing into `List.range` inverts. -/
theorem range_getElem?_inv {n k x : Nat} (h : (List.range n)[k]? = some x) :
    x = k ∧ k < n := by
  have hk : k < n := by
    by_contra hge
    rw [List.getElem?_eq_none (by simp; omega)] at h
    exact Option.noConfusion h
  rw [List.getElem?_range hk] at h
  exact ⟨(Option.some_inj.mp h).symm, hk⟩

/-- A `sample::Index` resolved against `0, …, n-1` yields the position
itself. -/
theorem sampleGet_range (u n : Nat) (h : 0 < n) :
    sampleGet u (List.range n) = u % n := by
  unfold sampleGet
  rw [List.getD_eq_getElem?_getD]
  have hk : u % (List.range n).length < n := by
    rw [List.length_range]
    exact Nat.mod_lt u h
  rw [List.getElem?_range hk]
  simp [List.length_range]

/-- A `sample::Index` resolved against simulated accounts with canonical
ids yields the account whose id is the position. -/
theorem sampleGet_id (s : List SimAccount) (u : Nat) (h : 0 < s.length)
    (hid : ∀ (k : Nat) (a : SimAccount), s[k]? = some a → a.id = k) :
    (sampleGet u s).id = u % s.length := by
  unfold sampleGet
  have hk : u % s.length < s.length := Nat.mod_lt u h
  rw [List.getD_eq_getElem?_getD, List.getElem?_eq_getElem hk]
  exact hid _ _ (List.getElem?_eq_getElem hk)

/-- Transactions below `m` are below any `n ≥ m`. -/
theorem txBelow_mono {m n : Nat} (h : m ≤ n) {tx : Transaction}
    (hb : TxBelow m tx) : TxBelow n tx := by
  cases tx with
  | deposit to_ amount => exact Nat.lt_of_lt_of_le hb h
  | withdraw from_ amount => exact Nat.lt_of_lt_of_le hb h
  | transfer from_ to_ amount =>
    exact ⟨Nat.lt_of_lt_of_le hb.1 h, Nat.lt_of_lt_of_le hb.2 h⟩

/-- The coupling invariant holds initially. -/
theorem diffInv_init : DiffInv SimBank.init RealBank.init := by
  refine ⟨?_, rfl, rfl, rfl, ?_, ?_⟩
  · intro k a h
    exact Option.noConfusion h
  · intro tx htx
    exact absurd htx (List.not_mem_nil tx)
  · intro k a h
    exact Option.noConfusion h

/-- `Open` preserves the coupling invariant. -/
theorem diffInv_openT (s : SimBank) (r : RealBank) (inv : DiffInv s r) :
    DiffInv (s.apply .openT) (r.apply .openT) := by
  obtain ⟨ids, next, opens, bankAccounts, txs, bal⟩ := inv
  have hsapply : s.apply .openT
      = { accounts := s.accounts ++ [{ id := s.accounts.length, balance := 0 }],
          next_account_id := s.accounts.length + 1 } := by
    simp [SimBank.apply, next]
  have ho := openAccount_range r.inner false s.accounts.length bankAccounts
  have hrapply : r.apply .openT
      = { inner := { r.inner with accounts := List.range (s.accounts.length + 1) },
          open_accounts := r.open_accounts ++ [s.accounts.length] } := by
    simp [RealBank.apply, ho]
  rw [hsapply, hrapply]
  refine ⟨?_, ?_, ?_, ?_, ?_, ?_⟩
  · intro k a h
    rcases Nat.lt_trichotomy k s.accounts.length with hk | hk | hk
    · rw [List.getElem?_append_left hk] at h
      exact ids k a h
    · subst hk
      rw [List.getElem?_concat_length] at h
      rw [← Option.some_inj.mp h]
    · rw [List.getElem?_eq_none (by simp; omega)] at h
      exact Option.noConfusion h
  · simp
  · simp [opens, List.range_succ]
  · simp [List.range_succ]
  · intro tx htx
    have : (s.accounts ++ [({ id := s.accounts.length, balance := 0 } : SimAccount)]).length
        = s.accounts.length + 1 := by simp
    rw [this]
    exact txBelow_mono (Nat.le_succ _) (txs tx htx)
  · intro k a h
    show r.inner.balanceVal k = a.balance
    rcases Nat.lt_trichotomy k s.accounts.length with hk | hk | hk
    · rw [List.getElem?_append_left hk] at h
      exact bal k a h
    · subst hk
      rw [List.getElem?_concat_length] at h
      rw [← Option.some_inj.mp h]
      exact balanceVal_zero_of_below r.inner s.accounts.length s.accounts.length txs
        (Nat.le_refl _)
    · rw [List.getElem?_eq_none (by simp; omega)] at h
      exact Option.noConfusion h

/-- `Deposit` preserves the coupling invariant. -/
theorem diffInv_depositT (s : SimBank) (r : RealBank) (u amount : Nat)
    (inv : DiffInv s r) (hn : 0 < s.accounts.length) :
    DiffInv (s.apply (.depositT u amount)) (r.apply (.depositT u amount)) := by
  obtain ⟨ids, next, opens, bankAccounts, txs, bal⟩ := inv
  have hi : u % s.accounts.length < s.accounts.length := Nat.mod_lt u hn
  have hacct : sampleGet u r.open_accounts = u % s.accounts.length := by
    rw [opens, sampleGet_range u _ hn]
  have hsapply : s.apply (.depositT u amount)
      = { s with accounts := (modifyAt s.accounts (u % s.accounts.length)
            (fun a => { a with balance := a.balance + toI64 amount })) } := rfl
  have hrapply : r.apply (.depositT u amount)
      = { r with inner := { r.inner with transactions :=
            r.inner.transactions
              ++ [Transaction.deposit (u % s.accounts.length) amount] } } := by
    simp [RealBank.apply, hacct, Bank.deposit]
  rw [hsapply, hrapply]
  refine ⟨?_, ?_, ?_, ?_, ?_, ?_⟩
  · intro k a h
    by_cases hk : k = u % s.accounts.length
    · rw [← hk] at h
      cases hsk : s.accounts[k]? with
      | none =>
        rw [List.getElem?_eq_getElem (by omega)] at hsk
        exact Option.noConfusion hsk
      | some b =>
        rw [modifyAt_getElem?_self _ _ _ b hsk] at h
        rw [← Option.some_inj.mp h]
        exact ids k b hsk
    · rw [modifyAt_getElem?_ne _ _ _ _ hk] at h
      exact ids k a h
  · simp [modifyAt_length, next]
  · simp [modifyAt_length, opens]
  · simp [modifyAt_length, bankAccounts]
  · intro tx htx
    show TxBelow (modifyAt s.accounts _ _).length tx
    rw [modifyAt_length]
    rcases List.mem_append.mp htx with hold | hnew
    · exact txs tx hold
    · rw [List.mem_singleton.mp hnew]
      exact hi
  · intro k a h
    show Bank.balanceVal _ k = a.balance
    have hbv := balanceVal_append r.inner
      (Transaction.deposit (u % s.accounts.length) amount) k
    by_cases hk : k = u % s.accounts.length
    · rw [← hk] at h hbv ⊢
      cases hsk : s.accounts[k]? with
      | none =>
        rw [List.getElem?_eq_getElem (by omega)] at hsk
        exact Option.noConfusion hsk
      | some b =>
        rw [modifyAt_getElem?_self _ _ _ b hsk] at h
        rw [hbv, ← Option.some_inj.mp h]
        have hc : (Transaction.deposit k amount).contribution k = some (toI64 amount) := by
          simp [Transaction.contribution]
        rw [hc]
        simp [bal k b hsk]
    · rw [modifyAt_getElem?_ne _ _ _ _ hk] at h
      have hc : (Transaction.deposit (u % s.accounts.length) amount).contribution k
          = none := by
        simp [Transaction.contribution, Ne.symm hk]
      rw [hbv, hc]
      simp [bal k a h]

/-- `Withdraw` preserves the coupling invariant. -/
theorem diffInv_withdrawT (s : SimBank) (r : RealBank) (u amount : Nat)
    (inv : DiffInv s r) (hn : 0 < s.accounts.length) :
    DiffInv (s.apply (.withdrawT u amount)) (r.apply (.withdrawT u amount)) := by
  obtain ⟨ids, next, opens, bankAccounts, txs, bal⟩ := inv
  have hi : u % s.accounts.length < s.accounts.length := Nat.mod_lt u hn
  have hacct : sampleGet u r.open_accounts = u % s.accounts.length := by
    rw [opens, sampleGet_range u _ hn]
  have hsapply : s.apply (.withdrawT u amount)
      = { s with accounts := (modifyAt s.accounts (u % s.accounts.length)
            (fun a => { a with balance := a.balance - toI64 amount })) } := rfl
  have hrapply : r.apply (.withdrawT u amount)
      = { r with inner := { r.inner with transactions :=
            r.inner.transactions
              ++ [Transaction.withdraw (u % s.accounts.length) amount] } } := by
    simp [RealBank.apply, hacct, Bank.withdraw]
  rw [hsapply, hrapply]
  refine ⟨?_, ?_, ?_, ?_, ?_, ?_⟩
  · intro k a h
    by_cases hk : k = u % s.accounts.length
    · rw [← hk] at h
      cases hsk : s.accounts[k]? with
      | none =>
        rw [List.getElem?_eq_getElem (by omega)] at hsk
        exact Option.noConfusion hsk
      | some b =>
        rw [modifyAt_getElem?_self _ _ _ b hsk] at h
        rw [← Option.some_inj.mp h]
        exact ids k b hsk
    · rw [modifyAt_getElem?_ne _ _ _ _ hk] at h
      exact ids k a h
  · simp [modifyAt_length, next]
  · simp [modifyAt_length, opens]
  · simp [modifyAt_length, bankAccounts]
  · intro tx htx
    show TxBelow (modifyAt s.accounts _ _).length tx
    rw [modifyAt_length]
    rcases List.mem_append.mp htx with hold | hnew
    · exact txs tx hold
    · rw [List.mem_singleton.mp hnew]
      exact hi
  · intro k a h
    show Bank.balanceVal _ k = a.balance
    have hbv := balanceVal_append r.inner
      (Transaction.withdraw (u % s.accounts.length) amount) k
    by_cases hk : k = u % s.accounts.length
    · rw [← hk] at h hbv ⊢
      cases hsk : s.accounts[k]? with
      | none =>
        rw [List.getElem?_eq_getElem (by omega)] at hsk
        exact Option.noConfusion hsk
      | some b =>
        rw [modifyAt_getElem?_self _ _ _ b hsk] at h
        rw [hbv, ← Option.some_inj.mp h]
        have hc : (Transaction.withdraw k amount).contribution k
            = some (-toI64 amount) := by
          simp [Transaction.contribution]
        rw [hc]
        have := bal k b hsk
        simp [this]
        ring
    · rw [modifyAt_getElem?_ne _ _ _ _ hk] at h
      have hc : (Transaction.withdraw (u % s.accounts.length) amount).contribution k
          = none := by
        simp [Transaction.contribution, Ne.symm hk]
      rw [hbv, hc]
      simp [bal k a h]

/-- `Transfer` between distinct resolved positions preserves the coupling
invariant. -/
theorem diffInv_transferT (s : SimBank) (r : RealBank) (u v amount : Nat)
    (inv : DiffInv s r) (hn : 0 < s.accounts.length)
    (hij : u % s.accounts.length ≠ v % s.accounts.length) :
    DiffInv (s.apply (.transferT u v amount)) (r.apply (.transferT u v amount)) := by
  obtain ⟨ids, next, opens, bankAccounts, txs, bal⟩ := inv
  have hi : u % s.accounts.length < s.accounts.length := Nat.mod_lt u hn
  have hj : v % s.accounts.length < s.accounts.length := Nat.mod_lt v hn
  have hfrom : sampleGet u r.open_accounts = u % s.accounts.length := by
    rw [opens, sampleGet_range u _ hn]
  have hto : sampleGet v r.open_accounts = v % s.accounts.length := by
    rw [opens, sampleGet_range v _ hn]
  have hsapply : s.apply (.transferT u v amount)
      = { s with accounts := (modifyAt (modifyAt s.accounts (u % s.accounts.length)
            (fun a => { a with balance := a.balance - toI64 amount }))
            (v % s.accounts.length)
            (fun a => { a with balance := a.balance + toI64 amount })) } := by
    simp [SimBank.apply, modifyAt_length]
  have hrapply : r.apply (.transferT u v amount)
      = { r with inner := { r.inner with transactions :=
            r.inner.transactions ++ [Transaction.transfer (u % s.accounts.length)
              (v % s.accounts.length) amount] } } := by
    simp [RealBank.apply, hfrom, hto, Bank.transfer]
  rw [hsapply, hrapply]
  refine ⟨?_, ?_, ?_, ?_, ?_, ?_⟩
  · intro k a h
    by_cases hkj : k = v % s.accounts.length
    · rw [← hkj] at h
      have hki : k ≠ u % s.accounts.length := by
        rw [hkj]
        exact fun hh => hij hh.symm
      have hL1 : (modifyAt s.accounts (u % s.accounts.length)
          (fun a => { a with balance := a.balance - toI64 amount }))[k]?
          = s.accounts[k]? := modifyAt_getElem?_ne _ _ _ _ hki
      cases hsk : s.accounts[k]? with
      | none =>
        rw [List.getElem?_eq_getElem (by omega)] at hsk
        exact Option.noConfusion hsk
      | some b =>
        rw [modifyAt_getElem?_self _ _ _ b (hL1.trans hsk)] at h
        rw [← Option.some_inj.mp h]
        exact ids k b hsk
    · rw [modifyAt_getElem?_ne _ _ _ _ hkj] at h
      by_cases hki : k = u % s.accounts.length
      · rw [← hki] at h
        cases hsk : s.accounts[k]? with
        | none =>
          rw [List.getElem?_eq_getElem (by omega)] at hsk
          exact Option.noConfusion hsk
        | some b =>
          rw [modifyAt_getElem?_self _ _ _ b hsk] at h
          rw [← Option.some_inj.mp h]
          exact ids k b hsk
      · rw [modifyAt_getElem?_ne _ _ _ _ hki] at h
        exact ids k a h
  · simp [modifyAt_length, next]
  · simp [modifyAt_length, opens]
  · simp [modifyAt_length, bankAccounts]
  · intro tx htx
    show TxBelow (modifyAt (modifyAt s.accounts _ _) _ _).length tx
    rw [modifyAt_length, modifyAt_length]
    rcases List.mem_append.mp htx with hold | hnew
    · exact txs tx hold
    · rw [List.mem_singleton.mp hnew]
      exact ⟨hi, hj⟩
  · intro k a h
    show Bank.balanceVal _ k = a.balance
    have hbv := balanceVal_append r.inner
      (Transaction.transfer (u % s.accounts.length) (v % s.accounts.length) amount) k
    by_cases hkj : k = v % s.accounts.length
    · have hki : k ≠ u % s.accounts.length := by
        rw [hkj]
        exact fun hh => hij hh.symm
      rw [← hkj] at h hbv ⊢
      have hL1 : (modifyAt s.accounts (u % s.accounts.length)
          (fun a => { a with balance := a.balance - toI64 amount }))[k]?
          = s.accounts[k]? := modifyAt_getElem?_ne _ _ _ _ hki
      cases hsk : s.accounts[k]? with
      | none =>
        rw [List.getElem?_eq_getElem (by omega)] at hsk
        exact Option.noConfusion hsk
      | some b =>
        rw [modifyAt_getElem?_self _ _ _ b (hL1.trans hsk)] at h
        rw [hbv, ← Option.some_inj.mp h]
        have hc : (Transaction.transfer (u % s.accounts.length) k amount).contribution k
            = some (toI64 amount) := by
          simp [Transaction.contribution, Ne.symm hki]
        rw [hc]
        simp [bal k b hsk]
    · rw [modifyAt_getElem?_ne _ _ _ _ hkj] at h
      by_cases hki : k = u % s.accounts.length
      · rw [← hki] at h hbv ⊢
        cases hsk : s.accounts[k]? with
        | none =>
          rw [List.getElem?_eq_getElem (by omega)] at hsk
          exact Option.noConfusion hsk
        | some b =>
          rw [modifyAt_getElem?_self _ _ _ b hsk] at h
          rw [hbv, ← Option.some_inj.mp h]
          have hc : (Transaction.transfer k (v % s.accounts.length) amount).contribution k
              = some (-toI64 amount) := by
            simp [Transaction.contribution]
          rw [hc]
          have hb := bal k b hsk
          simp [hb]
          ring
      · rw [modifyAt_getElem?_ne _ _ _ _ hki] at h
        rw [hbv]
        have hc : (Transaction.transfer (u % s.accounts.length) (v % s.accounts.length)
            amount).contribution k = none := by
          simp [Transaction.contribution, Ne.symm hki, Ne.symm hkj]
        rw [hc]
        simp [bal k a h]

/-- Any transition satisfying `SimBank::preconditions` preserves the
coupling invariant. -/
theorem diffInv_step (s : SimBank) (r : RealBank) (t : Transition)
    (inv : DiffInv s r) (hpre : s.preconditions t = true) :
    DiffInv (s.apply t) (r.apply t) := by
  cases t with
  | openT => exact diffInv_openT s r inv
  | depositT u amount =>
    have hn : 0 < s.accounts.length := by
      simp only [SimBank.preconditions] at hpre
      cases hsa : s.accounts with
      | nil => rw [hsa] at hpre; simp at hpre
      | cons a l => simp [hsa]
    exact diffInv_depositT s r u amount inv hn
  | withdrawT u amount =>
    have hn : 0 < s.accounts.length := by
      simp only [SimBank.preconditions] at hpre
      cases hsa : s.accounts with
      | nil => rw [hsa] at hpre; simp at hpre
      | cons a l => simp [hsa]
    exact diffInv_withdrawT s r u amount inv hn
  | transferT u v amount =>
    simp only [SimBank.preconditions] at hpre
    have hne : s.accounts.isEmpty = false := by
      cases hsa : s.accounts with
      | nil => rw [hsa] at hpre; simp at hpre
      | cons a l => simp [hsa]
    rw [hne] at hpre
    simp only [Bool.false_eq_true, if_false, bne_iff_ne, ne_eq] at hpre
    have hn : 0 < s.accounts.length := by
      cases hsa : s.accounts with
      | nil => rw [hsa] at hne; simp at hne
      | cons a l => simp [hsa]
    have h1 : (sampleGet u s.accounts).id = u % s.accounts.length :=
      sampleGet_id s.accounts u hn inv.ids
    have h2 : (sampleGet v s.accounts).id = v % s.accounts.length :=
      sampleGet_id s.accounts v hn inv.ids
    have hij : u % s.accounts.length ≠ v % s.accounts.length := by
      rw [← h1, ← h2]
      exact hpre
    exact diffInv_transferT s r u v amount inv hn hij

/-- The coupling invariant implies the assertion of the differential
runner. -/
theorem diffInv_agree (s : SimBank) (r : RealBank) (inv : DiffInv s r) :
    balancesAgree r s = true := by
  unfold balancesAgree
  rw [inv.opens]
  refine all_zip_of_index _ _ _ ?_
  intro k x y hx hy
  obtain ⟨hxk, hkn⟩ := range_getElem?_inv hx
  rw [hxk]
  simp [Bank.balance, inv.bal k y hy]

/-- The coupling invariant is preserved along any valid transition
sequence. -/
theorem diffInv_runSeq (ts : List Transition) :
    ∀ p : SimBank × RealBank, DiffInv p.1 p.2 → ValidSeq p.1 ts = true →
      DiffInv (ts.foldl runPair p).1 (ts.foldl runPair p).2 := by
  induction ts with
  | nil => intro p hp _; exact hp
  | cons t ts ih =>
    intro p hp hv
    simp only [ValidSeq] at hv
    rw [Bool.and_eq_true] at hv
    obtain ⟨h1, h2⟩ := hv
    rw [List.foldl_cons]
    exact ih (runPair p t) (diffInv_step p.1 p.2 t hp h1) (by simpa [runPair] using h2)

/-- A prefix of a valid transition sequence is valid. -/
theorem validSeq_take (ts : List Transition) :
    ∀ (s : SimBank) (n : Nat), ValidSeq s ts = true → ValidSeq s (ts.take n) = true := by
  induction ts with
  | nil => intro s n _; simp [List.take_nil, ValidSeq]
  | cons t ts ih =>
    intro s n hv
    cases n with
    | zero => rfl
    | succ m =>
      simp only [List.take_succ_cons, ValidSeq] at hv ⊢
      rw [Bool.and_eq_true] at hv
      obtain ⟨h1, h2⟩ := hv
      rw [h1, ih (s.apply t) m h2]
      rfl

/-- C2: for every transition sequence in which each transition satisfies
`SimBank::preconditions` in the reference state it is applied to, after
every step of the differential run the production `Bank::balance` agrees
exactly with the reference model's stored balance on every account known
to both models: the runner's assertion never fails. -/
theorem claim_C2 (ts : List Transition) (h : ValidSeq SimBank.init ts = true) (n : Nat) :
    balancesAgree (runSeq (ts.take n)).2 (runSeq (ts.take n)).1 = true := by
  have hv := validSeq_take ts SimBank.init n h
  have hinv := diffInv_runSeq (ts.take n) (SimBank.init, RealBank.init) diffInv_init hv
  unfold runSeq
  exact diffInv_agree _ _ hinv

/-- C2 witness: a concrete valid four-step run (open, deposit, open,
transfer), checked after its final step. -/
theorem claim_C2_witness :
    ValidSeq SimBank.init
      [Transition.openT, Transition.depositT 0 5, Transition.openT,
        Transition.transferT 0 1 3] = true ∧
    balancesAgree
      (runSeq ([Transition.openT, Transition.depositT 0 5, Transition.openT,
        Transition.transferT 0 1 3].take 4)).2
      (runSeq ([Transition.openT, Transition.depositT 0 5, Transition.openT,
        Transition.transferT 0 1 3].take 4)).1 = true :=
  ⟨by decide,
    claim_C2 [Transition.openT, Transition.depositT 0 5, Transition.openT,
      Transition.transferT 0 1 3] (by decide) 4⟩
